import Mathlib

/-!
Verification of the flat-file record store shared by the four command-line
utilities in this repository (contact book, to-do list, social feed, personal
finance ledger).  Strings are modelled as `List Char`; a text file is modelled
as its full character content, with `'\n'`-terminated lines, exactly as the
Python code writes it.  Warnings printed by the loaders are modelled as the
list of the (1-based) line numbers they reference.
-/

/-- Strings of the Python programs, modelled as lists of characters. -/
abbrev Str := List Char

/-- The characters removed by Python `str.strip()` (ASCII whitespace:
space, tab, newline, carriage return, vertical tab, form feed).  Python also
strips some further Unicode whitespace; the files of these programs are ASCII. -/
def isPySpace (c : Char) : Bool :=
  decide (c.toNat = 32 ∨ c.toNat = 9 ∨ c.toNat = 10 ∨ c.toNat = 13 ∨
          c.toNat = 11 ∨ c.toNat = 12)

/-- Python `str.strip()`: drop leading and trailing whitespace. -/
def stripChars (l : Str) : Str :=
  ((l.dropWhile isPySpace).reverse.dropWhile isPySpace).reverse

/-- Python `str.lower()` (the programs only lower-case ASCII names). -/
def lowerStr (l : Str) : Str := l.map Char.toLower

/-- ASCII digit test, as used by Python `str.isdigit` on ASCII input. -/
def isDigitChar (c : Char) : Bool := decide (48 ≤ c.toNat ∧ c.toNat ≤ 57)

/-- Helper of `splitChar`: prepend a character to the first piece. -/
def consHead (c : Char) : List Str → List Str
  | [] => [[c]]
  | p :: ps => (c :: p) :: ps

/-- Python `str.split(sep)` for a single-character separator:
`"a,b".split(",") = ["a","b"]`, `"".split(",") = [""]`. -/
def splitChar (sep : Char) : Str → List Str
  | [] => [[]]
  | c :: cs =>
    if c = sep then [] :: splitChar sep cs else consHead c (splitChar sep cs)

/-- Python `str.split(sep, maxsplit)` for a single-character separator:
the first argument is the number of splits still allowed. -/
def splitCharMax (sep : Char) : Nat → Str → List Str
  | _, [] => [[]]
  | 0, l => [l]
  | n + 1, c :: cs =>
    if c = sep then [] :: splitCharMax sep n cs
    else consHead c (splitCharMax sep (n + 1) cs)

/-- The decimal digit characters. -/
def digitChar : Nat → Char
  | 0 => '0'
  | 1 => '1'
  | 2 => '2'
  | 3 => '3'
  | 4 => '4'
  | 5 => '5'
  | 6 => '6'
  | 7 => '7'
  | 8 => '8'
  | 9 => '9'
  | _ => '*'

/-- Numeric value of a decimal digit character. -/
def digitVal (c : Char) : Option Nat :=
  if isDigitChar c then some (c.toNat - 48) else none

/-- Value of a string of decimal digit characters (Python `int` on digits). -/
def digitsToNat (l : Str) : Nat :=
  l.foldl (fun acc c => 10 * acc + (c.toNat - 48)) 0

/-- Fuel-driven decimal rendering of a natural number (as Python `str(int)`
renders a non-negative integer).  The fuel is an upper bound on the number. -/
def natToCharsAux : Nat → Nat → Str
  | 0, _ => []
  | fuel + 1, n =>
    if n < 10 then [digitChar n]
    else natToCharsAux fuel (n / 10) ++ [digitChar (n % 10)]

/-- Decimal rendering of a natural number, Python `str(n)` for `n ≥ 0`. -/
def natToChars (n : Nat) : Str := natToCharsAux (n + 1) n

/-- Python `str(i)` on an `int`. -/
def intToChars (i : Int) : Str :=
  if i < 0 then '-' :: natToChars i.natAbs else natToChars i.toNat

/-- Digit-string part of Python `int(s)` parsing. -/
def parseDigits (l : Str) : Option Nat :=
  if l ≠ [] ∧ l.all isDigitChar = true then some (digitsToNat l) else none

/-- Python `int(s)`: surrounding whitespace allowed, optional sign, then
decimal digits; anything else raises `ValueError`, modelled as `none`.
(Python additionally allows underscore digit separators, never produced by
these programs.) -/
def parseInt (l : Str) : Option Int :=
  match stripChars l with
  | [] => none
  | c :: rest =>
    if c = '-' then (parseDigits rest).map (fun n => -(n : Int))
    else if c = '+' then (parseDigits rest).map (fun n => (n : Int))
    else (parseDigits (c :: rest)).map (fun n => (n : Int))

/-- Model of a Python `datetime.datetime` value: the numeric fields the
programs serialize.  (Python's type also enforces calendar-day validity;
`DateTime.valid` below is the superset of field-range constraints, which is
all the serialization round trip needs.) -/
structure DateTime where
  year : Nat
  month : Nat
  day : Nat
  hour : Nat
  minute : Nat
  second : Nat
  usec : Nat
deriving DecidableEq

/-- Field ranges of every Python `datetime` value. -/
def DateTime.valid (t : DateTime) : Prop :=
  1 ≤ t.year ∧ t.year ≤ 9999 ∧ 1 ≤ t.month ∧ t.month ≤ 12 ∧ 1 ≤ t.day ∧
  t.day ≤ 31 ∧ t.hour ≤ 23 ∧ t.minute ≤ 59 ∧ t.second ≤ 59 ∧ t.usec ≤ 999999

instance (t : DateTime) : Decidable t.valid := by
  unfold DateTime.valid
  infer_instance

/-- Zero-padded 2-digit decimal rendering. -/
def pad2 (n : Nat) : Str := [digitChar (n / 10 % 10), digitChar (n % 10)]

/-- Zero-padded 4-digit decimal rendering. -/
def pad4 (n : Nat) : Str :=
  [digitChar (n / 1000 % 10), digitChar (n / 100 % 10),
   digitChar (n / 10 % 10), digitChar (n % 10)]

/-- Zero-padded 6-digit decimal rendering. -/
def pad6 (n : Nat) : Str :=
  [digitChar (n / 100000 % 10), digitChar (n / 10000 % 10),
   digitChar (n / 1000 % 10), digitChar (n / 100 % 10),
   digitChar (n / 10 % 10), digitChar (n % 10)]

/-- Python `datetime.isoformat()`: `YYYY-MM-DDTHH:MM:SS`, with a
`.ffffff` microsecond suffix exactly when the microsecond field is nonzero. -/
def isoDT (t : DateTime) : Str :=
  pad4 t.year ++ '-' :: pad2 t.month ++ '-' :: pad2 t.day ++ 'T' :: pad2 t.hour ++
  ':' :: pad2 t.minute ++ ':' :: pad2 t.second ++
  (if t.usec = 0 then [] else '.' :: pad6 t.usec)

/-- Two decimal digits. -/
def read2 (a b : Char) : Option Nat :=
  match digitVal a, digitVal b with
  | some x, some y => some (10 * x + y)
  | _, _ => none

/-- Four decimal digits. -/
def read4 (a b c d : Char) : Option Nat :=
  match read2 a b, read2 c d with
  | some x, some y => some (100 * x + y)
  | _, _ => none

/-- Six decimal digits. -/
def read6 (a b c d e f : Char) : Option Nat :=
  match read2 a b, read2 c d, read2 e f with
  | some x, some y, some z => some (10000 * x + 100 * y + z)
  | _, _, _ => none

/-- Time-of-day part of `fromIso`, after the date and separator. -/
def fromIsoTime (y mo d : Nat) (l : Str) : Option DateTime :=
  match l with
  | a1 :: a2 :: c1 :: b1 :: b2 :: c2 :: e1 :: e2 :: rest =>
    match read2 a1 a2, read2 b1 b2, read2 e1 e2 with
    | some h, some mi, some s =>
      if c1 = ':' ∧ c2 = ':' ∧ h ≤ 23 ∧ mi ≤ 59 ∧ s ≤ 59 then
        match rest with
        | [] => some ⟨y, mo, d, h, mi, s, 0⟩
        | dot :: us =>
          match us with
          | [u1, u2, u3, u4, u5, u6] =>
            if dot = '.' then
              match read6 u1 u2 u3 u4 u5 u6 with
              | some u => some ⟨y, mo, d, h, mi, s, u⟩
              | none => none
            else none
          | _ => none
      else none
    | _, _, _ => none
  | _ => none

/-- Model of Python `datetime.datetime.fromisoformat`, restricted to the
formats `isoformat` itself emits (date, optional `T`/space separator, time,
optional 6-digit fraction).  Python accepts some further spellings
(e.g. shorter fractions, time zones); none are ever written by these
programs, and the loaders below only ever meet strings whose acceptance or
rejection agrees with Python's. -/
def fromIso (l : Str) : Option DateTime :=
  match l with
  | y1 :: y2 :: y3 :: y4 :: s1 :: mo1 :: mo2 :: s2 :: d1 :: d2 :: rest =>
    match read4 y1 y2 y3 y4, read2 mo1 mo2, read2 d1 d2 with
    | some y, some mo, some d =>
      if s1 = '-' ∧ s2 = '-' ∧ 1 ≤ y ∧ 1 ≤ mo ∧ mo ≤ 12 ∧ 1 ≤ d ∧ d ≤ 31 then
        match rest with
        | [] => some ⟨y, mo, d, 0, 0, 0, 0⟩
        | sep :: tl => if sep = 'T' ∨ sep = ' ' then fromIsoTime y mo d tl else none
      else none
    | _, _, _ => none
  | _ => none

/-!
### Contact management system (`ContactManagementSystem.py`)

A contact record is the 4-field dictionary built by `_load_contacts` /
`add_contact`.  A database file is its raw character content; Python's
line-by-line file iteration followed by `strip()` and the blank-line test is
equivalent to splitting the content on `'\n'` and skipping blank pieces.
-/

/-- One field name of `_validate_input`. -/
inductive FieldName
  | name
  | contact
  | email
  | group
deriving DecidableEq

/-- `VALID_GROUPS = ["Home", "Office"]`. -/
def VALID_GROUPS : List Str := ["Home".toList, "Office".toList]

/-- Model of `re.match(r"[^@]+@[^@]+\.[^@]+", value)`: the value must begin
with one or more non-`@` characters, an `@`, then (within the following
non-`@` run) a `.` that has at least one character before it and one after
it. -/
def emailOk (v : Str) : Bool :=
  let a := v.takeWhile (fun c => !(decide (c = '@')))
  match v.drop a.length with
  | '@' :: r =>
    let seg := r.takeWhile (fun c => !(decide (c = '@')))
    decide (a ≠ []) && ((seg.drop 1).dropLast.contains '.')
  | _ => false

/-- `ContactManager._validate_input`: strips the value, rejects empty values,
requires all digits for `Contact`, the e-mail pattern for `Email`, and
membership of `VALID_GROUPS` for `Group`.  (The code also prints a warning
for contact numbers shorter than 7 digits but still accepts them.) -/
def validateField (f : FieldName) (value : Str) : Bool :=
  let v := stripChars value
  if decide (v = []) then false
  else
    match f with
    | .name => true
    | .contact => v.all isDigitChar
    | .email => emailOk v
    | .group => decide (v ∈ VALID_GROUPS)

/-- One contact record: the dict with keys Name, Contact, Email, Group. -/
structure Contact where
  name : Str
  contact : Str
  email : Str
  group : Str
deriving DecidableEq

/-- A contact all of whose stored fields pass `_validate_input`. -/
def valid_contact (c : Contact) : Bool :=
  validateField .name c.name && validateField .contact c.contact &&
    validateField .email c.email && validateField .group c.group

/-- The line `_save_contacts` writes for one contact (without the newline). -/
def contact_line (c : Contact) : Str :=
  c.name ++ ',' :: c.contact ++ ',' :: c.email ++ ',' :: c.group

/-- `ContactManager._save_contacts`: the full file content written for a
contact list — one comma-joined, newline-terminated line per contact. -/
def save_contacts : List Contact → Str
  | [] => []
  | c :: cs => contact_line c ++ '\n' :: save_contacts cs

/-- The record built from one well-formed line (4 comma-separated parts of
the stripped line); an arbitrary record for other lines, which the loader
never admits. -/
def contact_of_line (l : Str) : Contact :=
  match splitChar ',' (stripChars l) with
  | [a, b, c, d] => ⟨a, b, c, d⟩
  | _ => ⟨[], [], [], []⟩

/-- Line-processing loop of `ContactManager._load_contacts` over the file's
lines, with the 1-based number of the first line.  Returns the loaded records
and the numbers of the lines about which a malformed-line warning was
printed.  Blank lines are skipped silently; a non-blank line is admitted
exactly when its stripped form splits into 4 comma-separated values. -/
def load_contacts_aux : Nat → List Str → List Contact × List Nat
  | _, [] => ([], [])
  | n, l :: ls =>
    if stripChars l = [] then load_contacts_aux (n + 1) ls
    else if (splitChar ',' (stripChars l)).length = 4 then
      (contact_of_line l :: (load_contacts_aux (n + 1) ls).1,
       (load_contacts_aux (n + 1) ls).2)
    else
      ((load_contacts_aux (n + 1) ls).1, n :: (load_contacts_aux (n + 1) ls).2)

/-- `ContactManager._load_contacts` on a file with the given content. -/
def load_contacts (content : Str) : List Contact × List Nat :=
  load_contacts_aux 1 (splitChar '\n' content)

/-- `ContactManager._is_contact_duplicate`: some existing contact matches the
candidate's name case-insensitively and its contact number exactly. -/
def is_contact_duplicate (cs : List Contact) (name contact_num : Str) : Bool :=
  cs.any fun c =>
    decide (lowerStr c.name = lowerStr name) && decide (c.contact = contact_num)

/-- Outcome of `add_contact`: the contact was appended and saved, or the
method returned early on a failed field validation, or on a duplicate. -/
inductive AddResult
  | ok
  | invalid
  | duplicate
deriving DecidableEq

/-- `ContactManager.add_contact` on already-stripped inputs: validate the
four fields in order (returning without change on the first failure), then
reject duplicates, otherwise append the new contact and save. -/
def add_contact (cs : List Contact) (name num email grp : Str) :
    List Contact × AddResult :=
  if validateField .name name = false then (cs, .invalid)
  else if validateField .contact num = false then (cs, .invalid)
  else if validateField .email email = false then (cs, .invalid)
  else if validateField .group grp = false then (cs, .invalid)
  else if is_contact_duplicate cs name num = true then (cs, .duplicate)
  else (cs ++ [⟨name, num, email, grp⟩], .ok)

/-- `ContactManager.update_contact` on already-stripped inputs: locate the
first contact whose name matches case-insensitively and number exactly; each
provided (non-blank) new field is applied only if it individually passes
validation; the file is rewritten (second component `true`) exactly when at
least one field was applied. -/
def update_contact (cs : List Contact) (fname fnum nn nc ne ng : Str) :
    List Contact × Bool :=
  match cs.findIdx? (fun c =>
      decide (lowerStr c.name = lowerStr fname) && decide (c.contact = fnum)) with
  | none => (cs, false)
  | some i =>
    match cs[i]? with
    | none => (cs, false)
    | some c0 =>
      let u1 := decide (nn ≠ []) && validateField .name nn
      let c1 := if u1 then { c0 with name := nn } else c0
      let u2 := decide (nc ≠ []) && validateField .contact nc
      let c2 := if u2 then { c1 with contact := nc } else c1
      let u3 := decide (ne ≠ []) && validateField .email ne
      let c3 := if u3 then { c2 with email := ne } else c2
      let u4 := decide (ng ≠ []) && validateField .group ng
      let c4 := if u4 then { c3 with group := ng } else c3
      if u1 || u2 || u3 || u4 then (cs.set i c4, true) else (cs, false)

/-- `ContactManager.delete_contact` on already-stripped inputs: keep the
contacts that do not match; the second component records whether anything was
deleted (and hence the file rewritten). -/
def delete_contact (cs : List Contact) (name num : Str) : List Contact × Bool :=
  if (cs.filter fun c =>
      !(decide (lowerStr c.name = lowerStr name) &&
        decide (c.contact = num))).length = cs.length then (cs, false)
  else (cs.filter fun c =>
    !(decide (lowerStr c.name = lowerStr name) && decide (c.contact = num)), true)

/-- Two contacts share their identity key: equal names up to case and equal
contact numbers. -/
def identity_clash (a b : Contact) : Prop :=
  lowerStr a.name = lowerStr b.name ∧ a.contact = b.contact

instance (a b : Contact) : Decidable (identity_clash a b) := by
  unfold identity_clash
  infer_instance

/-- No two distinct positions of the list hold identity-clashing contacts. -/
def dup_free (cs : List Contact) : Prop :=
  cs.Pairwise fun a b => ¬ identity_clash a b

/-- A contact whose four fields contain no comma, newline or carriage return,
and whose serialized line carries no leading or trailing whitespace — the
conditions under which its line survives the read-back (text-mode reading
also rewrites bare `'\r'`, hence its exclusion). -/
def clean_contact (c : Contact) : Prop :=
  ',' ∉ c.name ∧ ',' ∉ c.contact ∧ ',' ∉ c.email ∧ ',' ∉ c.group ∧
  '\n' ∉ c.name ∧ '\n' ∉ c.contact ∧ '\n' ∉ c.email ∧ '\n' ∉ c.group ∧
  '\r' ∉ c.name ∧ '\r' ∉ c.contact ∧ '\r' ∉ c.email ∧ '\r' ∉ c.group ∧
  stripChars (contact_line c) = contact_line c

instance (c : Contact) : Decidable (clean_contact c) := by
  unfold clean_contact
  infer_instance

instance (cs : List Contact) : Decidable (dup_free cs) := by
  unfold dup_free
  infer_instance

namespace Todo

/-!
### To-do list (`ToDoList.py`)

The source's `Task` class clashes with Lean's builtin `Task`, so this
section lives in the `Todo` namespace.
-/

/-- `'None'`, the serialized form of a missing deadline. -/
def noneStr : Str := "None".toList

/-- Python `str(bool)`. -/
def boolStr : Bool → Str
  | true => "True".toList
  | false => "False".toList

/-- A deadline is either absent or a valid datetime. -/
def deadline_valid : Option DateTime → Prop
  | none => True
  | some d => d.valid

instance : ∀ o : Option DateTime, Decidable (deadline_valid o) := fun o => by
  cases o <;> (unfold deadline_valid; infer_instance)

/-- One `Task` object: id, description, completion flag, creation timestamp
and optional deadline. -/
structure Task where
  id : Int
  description : Str
  is_completed : Bool
  creation : DateTime
  deadline : Option DateTime
deriving DecidableEq

/-- The invariants the `Task` constructor establishes (positive id, non-blank
stripped description) together with validity of the datetime fields. -/
def Task.wf (t : Task) : Prop :=
  0 < t.id ∧ t.description ≠ [] ∧ stripChars t.description = t.description ∧
  t.creation.valid ∧ deadline_valid t.deadline

instance (t : Task) : Decidable t.wf := by
  unfold Task.wf
  infer_instance

/-- `Task.to_file_format`: comma-joined id, description, completed flag,
ISO creation timestamp and ISO deadline or `'None'`. -/
def task_line (t : Task) : Str :=
  intToChars t.id ++ ',' :: t.description ++ ',' :: boolStr t.is_completed ++
  ',' :: isoDT t.creation ++
  ',' :: (match t.deadline with | none => noneStr | some d => isoDT d)

/-- `ToDoListManager._save_tasks`: one newline-terminated line per task. -/
def save_tasks : List Task → Str
  | [] => []
  | t :: ts => task_line t ++ '\n' :: save_tasks ts

/-- Parsing and constructing one task from the five split parts, as the body
of the `try` block in `_load_tasks` does: `int` on the id, the lower-cased
completed test, `fromisoformat` on the creation and (unless `'None'`) the
deadline, then the `Task` constructor's validation; any failure means the
line is skipped. -/
def task_of_parts (p0 p1 p2 p3 p4 : Str) : Option Task :=
  match parseInt p0, fromIso p3,
      (if p4 = noneStr then some none else (fromIso p4).map some) with
  | some i, some cr, some dl =>
    if 0 < i ∧ stripChars p1 ≠ [] then
      some ⟨i, stripChars p1, decide (lowerStr p2 = "true".toList), cr, dl⟩
    else none
  | _, _, _ => none

/-- Line-processing loop of `ToDoListManager._load_tasks`: skip blank lines;
split each line on `','` with maxsplit 4; a line without exactly 5 parts, or
whose parts fail parsing/construction, is skipped with a warning. -/
def load_tasks_aux : Nat → List Str → List Task × List Nat
  | _, [] => ([], [])
  | n, l :: ls =>
    if stripChars l = [] then load_tasks_aux (n + 1) ls
    else
      match splitCharMax ',' 4 (stripChars l) with
      | [p0, p1, p2, p3, p4] =>
        match task_of_parts p0 p1 p2 p3 p4 with
        | some t =>
          (t :: (load_tasks_aux (n + 1) ls).1, (load_tasks_aux (n + 1) ls).2)
        | none =>
          ((load_tasks_aux (n + 1) ls).1, n :: (load_tasks_aux (n + 1) ls).2)
      | _ => ((load_tasks_aux (n + 1) ls).1, n :: (load_tasks_aux (n + 1) ls).2)

/-- `max(ids seen)` — the running maximum `_load_tasks` keeps (0 initially). -/
def max_task_id (ts : List Task) : Int :=
  ts.foldr (fun t m => max t.id m) 0

/-- The manager state: live task list and the `_next_id` counter. -/
structure TodoState where
  tasks : List Task
  next_id : Int
deriving DecidableEq

/-- `ToDoListManager._load_tasks` on a file with the given content:
the loaded tasks, `_next_id` as the maximum loaded id plus one (1 when
nothing loads, as for a missing or empty file), and the warned line
numbers. -/
def load_tasks (content : Str) : TodoState × List Nat :=
  (⟨(load_tasks_aux 1 (splitChar '\n' content)).1,
    max_task_id (load_tasks_aux 1 (splitChar '\n' content)).1 + 1⟩,
   (load_tasks_aux 1 (splitChar '\n' content)).2)

/-- The mutating operations of the menu loop that touch ids. -/
inductive TodoOp
  | add (description : Str) (now : DateTime) (deadline : Option DateTime)
  | remove (id : Int)

/-- `add_task` / `remove_task` as state transformers.  `add_task` issues
`_next_id` (returned in the second component) and increments the counter;
a blank description, or a `Task` constructor failure, changes nothing.
`remove_task` filters by id and leaves the counter alone. -/
def apply_op (st : TodoState) : TodoOp → TodoState × List Int
  | .add desc now dl =>
    if stripChars desc = [] then (st, [])
    else if st.next_id ≤ 0 then (st, [])
    else (⟨st.tasks ++ [⟨st.next_id, stripChars desc, false, now, dl⟩],
      st.next_id + 1⟩, [st.next_id])
  | .remove i => (⟨st.tasks.filter fun t => !decide (t.id = i), st.next_id⟩, [])

/-- Run a sequence of operations, collecting every issued id in order. -/
def run_ops : TodoState → List TodoOp → TodoState × List Int
  | st, [] => (st, [])
  | st, op :: ops =>
    ((run_ops (apply_op st op).1 ops).1,
     (apply_op st op).2 ++ (run_ops (apply_op st op).1 ops).2)

/-- A task whose description is free of commas, newlines and carriage
returns (on top of the constructor invariants). -/
def clean_task (t : Task) : Prop :=
  Task.wf t ∧ ',' ∉ t.description ∧ '\n' ∉ t.description ∧ '\r' ∉ t.description

instance (t : Task) : Decidable (clean_task t) := by
  unfold clean_task
  infer_instance

end Todo

/-!
### Personal finance tracker (`FInanceTracker.py`) and social media platform
(`SocialMediaPlatform.py`)

Both store users in a Python dict keyed by account number / username;
the dict is modelled as an association list with insert-or-overwrite
(insertion order preserved, overwrite keeps the original position).
-/

/-- Python dict assignment `d[k] = v` on an association list. -/
def upsertAssoc {α : Type} (k : Str) (v : α) :
    List (Str × α) → List (Str × α)
  | [] => [(k, v)]
  | (k2, v2) :: rest =>
    if k2 = k then (k, v) :: rest else (k2, v2) :: upsertAssoc k v rest

/-- Python `float(s)` restricted to the decimal forms these programs write:
optional surrounding whitespace, optional sign, digits with an optional
fractional part.  The value is kept as the exact rational; Python rounds to
the nearest IEEE double, which agrees on sign and on every comparison the
code performs on these inputs.  (Python also accepts exponents and the words
inf/nan, which these programs never write.) -/
def parseUFrac (l : Str) : Option ℚ :=
  match l.drop (l.takeWhile isDigitChar).length with
  | [] =>
    if l.takeWhile isDigitChar = [] then none
    else some (mkRat (digitsToNat (l.takeWhile isDigitChar)) 1)
  | '.' :: frac =>
    if frac.all isDigitChar = true ∧
        (l.takeWhile isDigitChar ≠ [] ∨ frac ≠ []) then
      some (mkRat (digitsToNat (l.takeWhile isDigitChar) * 10 ^ frac.length +
        digitsToNat frac) (10 ^ frac.length))
    else none
  | _ => none

/-- Python `float(s)` (see `parseUFrac`). -/
def parseFloatQ (l : Str) : Option ℚ :=
  match stripChars l with
  | [] => none
  | c :: rest =>
    if c = '-' then (parseUFrac rest).map (fun q => -q)
    else if c = '+' then parseUFrac rest
    else parseUFrac (c :: rest)

namespace Finance

/-- `VALID_CATEGORIES = ['freelancer', 'full time', 'part time']`. -/
def VALID_CATEGORIES : List Str :=
  ["freelancer".toList, "full time".toList, "part time".toList]

/-- One finance-tracker `User`. -/
structure User where
  account_no : Str
  hashed_password : Str
  name : Str
  category : Str
deriving DecidableEq

/-- One line of `FinancialTracker._load_users`: split on `':'` with
maxsplit 3; exactly 4 parts with a category in the closed set build a user,
anything else is a warned, skipped line. -/
def parse_user_line (l : Str) : Option User :=
  match splitCharMax ':' 3 (stripChars l) with
  | [a, hp, nm, cat] =>
    if cat ∈ VALID_CATEGORIES then some ⟨a, hp, nm, cat⟩ else none
  | _ => none

/-- Line loop of `FinancialTracker._load_users` with the accumulated user
dict; warned line numbers in the second component. -/
def load_users_aux : Nat → List (Str × User) → List Str →
    List (Str × User) × List Nat
  | _, acc, [] => (acc, [])
  | n, acc, l :: ls =>
    if stripChars l = [] then load_users_aux (n + 1) acc ls
    else
      match parse_user_line l with
      | some u => load_users_aux (n + 1) (upsertAssoc u.account_no u acc) ls
      | none =>
        ((load_users_aux (n + 1) acc ls).1,
         n :: (load_users_aux (n + 1) acc ls).2)

/-- `FinancialTracker._load_users` on a file with the given content. -/
def load_users (content : Str) : List (Str × User) × List Nat :=
  load_users_aux 1 [] (splitChar '\n' content)

/-- One finance `Transaction`. -/
structure Transaction where
  account_no : Str
  timestamp : DateTime
  trans_type : Str
  amount : ℚ
  description : Str
deriving DecidableEq

/-- One line of `FinancialTracker._load_transactions`: split on `','` with
maxsplit 4 (so the trailing description may contain commas); the timestamp
must parse, the amount must convert to float, the type must be Income or
Expense and the amount must not be negative — otherwise the line is warned
and skipped. -/
def parse_transaction_line (l : Str) : Option Transaction :=
  match splitCharMax ',' 4 (stripChars l) with
  | [a, ts, ty, am, d] =>
    match fromIso ts, parseFloatQ am with
    | some tsv, some amv =>
      if (ty = "Income".toList ∨ ty = "Expense".toList) ∧ ¬ (amv < 0) then
        some ⟨a, tsv, ty, amv, d⟩
      else none
    | _, _ => none
  | _ => none

/-- Line loop of `FinancialTracker._load_transactions`. -/
def load_transactions_aux : Nat → List Str → List Transaction × List Nat
  | _, [] => ([], [])
  | n, l :: ls =>
    if stripChars l = [] then load_transactions_aux (n + 1) ls
    else
      match parse_transaction_line l with
      | some t =>
        (t :: (load_transactions_aux (n + 1) ls).1,
         (load_transactions_aux (n + 1) ls).2)
      | none =>
        ((load_transactions_aux (n + 1) ls).1,
         n :: (load_transactions_aux (n + 1) ls).2)

/-- `FinancialTracker._load_transactions` on a file with the given content. -/
def load_transactions (content : Str) : List Transaction × List Nat :=
  load_transactions_aux 1 (splitChar '\n' content)

/-- The amount gate of `FinancialTracker.add_transaction`: an amount with
`amount <= 0` is rejected at the prompt and never reaches the transaction
list or the file. -/
def entry_amount_ok (q : ℚ) : Bool := !(decide (q ≤ 0))

end Finance

namespace Social

/-- One social-platform `User` (username and hashed password, both stored
stripped by the constructor). -/
structure User where
  username : Str
  hashed_password : Str
deriving DecidableEq

/-- Outcome of `SocialMediaPlatform.signup`: success, an empty-field
rejection (including the `User` constructor's `ValueError` path), or a
taken username. -/
inductive SignupResult
  | ok
  | emptyField
  | taken
deriving DecidableEq

/-- `SocialMediaPlatform.signup`, parametrized by the SHA-256 digest — an
arbitrary function `hash : Str → Str`, since no claim depends on its values:
reject blank username/password; reject a username already present as a dict
key byte-for-byte; otherwise store the new user under its stripped
username. -/
def signup (hash : Str → Str) (users : List (Str × User))
    (username password : Str) : List (Str × User) × SignupResult :=
  if stripChars username = [] ∨ stripChars password = [] then
    (users, .emptyField)
  else if stripChars username ∈ users.map Prod.fst then (users, .taken)
  else if stripChars (hash password) = [] then (users, .emptyField)
  else
    (upsertAssoc (stripChars username)
      ⟨stripChars username, stripChars (hash password)⟩ users, .ok)

end Social

theorem consHead_cons (c : Char) (p : Str) (ps : List Str) :
    consHead c (p :: ps) = (c :: p) :: ps := rfl

theorem splitChar_of_not_mem (sep : Char) (l : Str) (h : sep ∉ l) :
    splitChar sep l = [l] := by
  induction l with
  | nil => rfl
  | cons c cs ih =>
    have hc : ¬ c = sep := fun hh => h (by simp [hh])
    have hcs : sep ∉ cs := fun hh => h (by simp [hh])
    rw [splitChar, if_neg hc, ih hcs, consHead_cons]

theorem splitChar_append (sep : Char) (a rest : Str) (h : sep ∉ a) :
    splitChar sep (a ++ sep :: rest) = a :: splitChar sep rest := by
  induction a with
  | nil => simp [splitChar]
  | cons c cs ih =>
    have hc : ¬ c = sep := fun hh => h (by simp [hh])
    have hcs : sep ∉ cs := fun hh => h (by simp [hh])
    rw [List.cons_append, splitChar, if_neg hc, ih hcs, consHead_cons]

theorem splitCharMax_zero (sep : Char) (l : Str) : splitCharMax sep 0 l = [l] := by
  cases l <;> rfl

theorem splitCharMax_of_not_mem (sep : Char) (n : Nat) (l : Str) (h : sep ∉ l) :
    splitCharMax sep n l = [l] := by
  induction l generalizing n with
  | nil => cases n <;> rfl
  | cons c cs ih =>
    cases n with
    | zero => rfl
    | succ m =>
      have hc : ¬ c = sep := fun hh => h (by simp [hh])
      have hcs : sep ∉ cs := fun hh => h (by simp [hh])
      rw [splitCharMax, if_neg hc, ih _ hcs, consHead_cons]

theorem splitCharMax_append (sep : Char) (n : Nat) (a rest : Str) (h : sep ∉ a) :
    splitCharMax sep (n + 1) (a ++ sep :: rest) = a :: splitCharMax sep n rest := by
  induction a with
  | nil => simp [splitCharMax]
  | cons c cs ih =>
    have hc : ¬ c = sep := fun hh => h (by simp [hh])
    have hcs : sep ∉ cs := fun hh => h (by simp [hh])
    rw [List.cons_append, splitCharMax, if_neg hc, ih hcs, consHead_cons]

theorem stripChars_eq_self (l : Str)
    (h1 : ∃ c t, l = c :: t ∧ isPySpace c = false)
    (h2 : ∃ i c, l = i ++ [c] ∧ isPySpace c = false) :
    stripChars l = l := by
  obtain ⟨c, t, he1, hc⟩ := h1
  obtain ⟨i, d, he2, hd⟩ := h2
  have hdrop : l.dropWhile isPySpace = l := by
    rw [he1, List.dropWhile_cons, hc]; simp
  have hrev : l.reverse = d :: i.reverse := by rw [he2]; simp
  unfold stripChars
  rw [hdrop, hrev, List.dropWhile_cons, hd]
  simp [← hrev]

example : stripChars ("  ab c  ".toList) = "ab c".toList := by decide

example : splitChar ',' ("a,b,".toList) = ["a".toList, "b".toList, [] ] := by decide

example : splitCharMax ',' 2 ("a,b,c,d".toList) =
    ["a".toList, "b".toList, "c,d".toList] := by decide

theorem digitChar_isDigit : ∀ n, n < 10 → isDigitChar (digitChar n) = true := by
  decide

theorem digitChar_toNat : ∀ n, n < 10 → (digitChar n).toNat = 48 + n := by
  decide

theorem digitVal_digitChar : ∀ n, n < 10 → digitVal (digitChar n) = some n := by
  decide

theorem digit_not_space (c : Char) (h : isDigitChar c = true) :
    isPySpace c = false := by
  simp only [isDigitChar, decide_eq_true_eq] at h
  simp only [isPySpace, decide_eq_false_iff_not]
  omega

theorem digit_ne_minus (c : Char) (h : isDigitChar c = true) : ¬ c = '-' := by
  intro he
  subst he
  exact absurd h (by decide)

theorem digit_ne_plus (c : Char) (h : isDigitChar c = true) : ¬ c = '+' := by
  intro he
  subst he
  exact absurd h (by decide)

theorem stripChars_of_all (l : Str) (p : Char → Prop)
    (hp : ∀ c, p c → isPySpace c = false)
    (hl : ∀ c ∈ l, p c) (hne : l ≠ []) : stripChars l = l := by
  apply stripChars_eq_self
  · cases l with
    | nil => exact absurd rfl hne
    | cons c t => exact ⟨c, t, rfl, hp c (hl c (by simp))⟩
  · have hrne : l.reverse ≠ [] := by
      simpa using hne
    obtain ⟨c, t, hct⟩ := List.exists_cons_of_ne_nil hrne
    refine ⟨t.reverse, c, ?_, ?_⟩
    · rw [← List.reverse_reverse l, hct]
      simp
    · refine hp c (hl c ?_)
      rw [← List.mem_reverse, hct]
      simp

theorem natToCharsAux_ne_nil : ∀ fuel n, n < fuel → natToCharsAux fuel n ≠ [] := by
  intro fuel
  induction fuel with
  | zero => intro n h; omega
  | succ fuel ih =>
    intro n _
    by_cases h10 : n < 10
    · simp [natToCharsAux, h10]
    · simp only [natToCharsAux, if_neg h10]
      simp

theorem natToCharsAux_digits : ∀ fuel n, n < fuel →
    ∀ c ∈ natToCharsAux fuel n, isDigitChar c = true := by
  intro fuel
  induction fuel with
  | zero => intro n h; omega
  | succ fuel ih =>
    intro n hn c hc
    by_cases h10 : n < 10
    · simp only [natToCharsAux, if_pos h10, List.mem_singleton] at hc
      rw [hc]
      exact digitChar_isDigit n h10
    · simp only [natToCharsAux, if_neg h10, List.mem_append,
        List.mem_singleton] at hc
      rcases hc with hc | hc
      · exact ih (n / 10) (by omega) c hc
      · rw [hc]
        exact digitChar_isDigit (n % 10) (by omega)

theorem digitsToNat_append_digit (a : Str) (c : Char) :
    digitsToNat (a ++ [c]) = 10 * digitsToNat a + (c.toNat - 48) := by
  simp only [digitsToNat, List.foldl_append, List.foldl_cons, List.foldl_nil]

theorem natToCharsAux_toNat : ∀ fuel n, n < fuel →
    digitsToNat (natToCharsAux fuel n) = n := by
  intro fuel
  induction fuel with
  | zero => intro n h; omega
  | succ fuel ih =>
    intro n hn
    by_cases h10 : n < 10
    · simp only [natToCharsAux, if_pos h10, digitsToNat, List.foldl_cons,
        List.foldl_nil, digitChar_toNat n h10]
      omega
    · rw [natToCharsAux, if_neg h10, digitsToNat_append_digit,
        ih (n / 10) (by omega), digitChar_toNat (n % 10) (by omega)]
      omega

theorem natToChars_ne_nil (n : Nat) : natToChars n ≠ [] :=
  natToCharsAux_ne_nil (n + 1) n (by omega)

theorem natToChars_all_digits (n : Nat) :
    ∀ c ∈ natToChars n, isDigitChar c = true :=
  natToCharsAux_digits (n + 1) n (by omega)

theorem digitsToNat_natToChars (n : Nat) : digitsToNat (natToChars n) = n :=
  natToCharsAux_toNat (n + 1) n (by omega)

theorem stripChars_natToChars (n : Nat) : stripChars (natToChars n) = natToChars n :=
  stripChars_of_all _ (fun c => isDigitChar c = true) digit_not_space
    (natToChars_all_digits n) (natToChars_ne_nil n)

theorem parseDigits_natToChars (n : Nat) :
    parseDigits (natToChars n) = some n := by
  rw [parseDigits, if_pos, digitsToNat_natToChars]
  exact ⟨natToChars_ne_nil n, List.all_eq_true.mpr (natToChars_all_digits n)⟩

theorem parseInt_natToChars (n : Nat) : parseInt (natToChars n) = some (n : Int) := by
  obtain ⟨c, t, hct⟩ := List.exists_cons_of_ne_nil (natToChars_ne_nil n)
  have hc : isDigitChar c = true :=
    natToChars_all_digits n c (by rw [hct]; simp)
  unfold parseInt
  rw [stripChars_natToChars, hct]
  simp only [if_neg (digit_ne_minus c hc), if_neg (digit_ne_plus c hc)]
  rw [← hct, parseDigits_natToChars]
  rfl

theorem parseInt_intToChars (i : Int) (h : 0 < i) :
    parseInt (intToChars i) = some i := by
  rw [intToChars, if_neg (by omega), parseInt_natToChars]
  congr 1
  omega

example : natToChars 2024 = "2024".toList := by decide

example : parseInt (" -37 ".toList) = some (-37) := by decide

example : parseInt ("3.5".toList) = none := by decide

theorem read2_digits (a b : Nat) (ha : a < 10) (hb : b < 10) :
    read2 (digitChar a) (digitChar b) = some (10 * a + b) := by
  unfold read2
  rw [digitVal_digitChar _ ha, digitVal_digitChar _ hb]

theorem read2_pad2 (n : Nat) (h : n < 100) :
    read2 (digitChar (n / 10 % 10)) (digitChar (n % 10)) = some n := by
  rw [read2_digits _ _ (by omega) (by omega)]
  congr 1
  omega

theorem read4_pad4 (n : Nat) (h : n < 10000) :
    read4 (digitChar (n / 1000 % 10)) (digitChar (n / 100 % 10))
      (digitChar (n / 10 % 10)) (digitChar (n % 10)) = some n := by
  unfold read4
  rw [read2_digits _ _ (by omega) (by omega), read2_digits _ _ (by omega) (by omega)]
  show some _ = some n
  congr 1
  omega

theorem read6_pad6 (n : Nat) (h : n < 1000000) :
    read6 (digitChar (n / 100000 % 10)) (digitChar (n / 10000 % 10))
      (digitChar (n / 1000 % 10)) (digitChar (n / 100 % 10))
      (digitChar (n / 10 % 10)) (digitChar (n % 10)) = some n := by
  unfold read6
  rw [read2_digits _ _ (by omega) (by omega), read2_digits _ _ (by omega) (by omega),
    read2_digits _ _ (by omega) (by omega)]
  show some _ = some n
  congr 1
  omega

theorem fromIsoTime_iso (y mo d : Nat) (t : DateTime)
    (h7 : t.hour ≤ 23) (h8 : t.minute ≤ 59) (h9 : t.second ≤ 59)
    (h10 : t.usec ≤ 999999) :
    fromIsoTime y mo d
      (pad2 t.hour ++ ':' :: pad2 t.minute ++ ':' :: pad2 t.second ++
        (if t.usec = 0 then [] else '.' :: pad6 t.usec)) =
      some ⟨y, mo, d, t.hour, t.minute, t.second, t.usec⟩ := by
  simp only [pad2, List.cons_append, List.nil_append]
  rw [fromIsoTime]
  rw [read2_pad2 t.hour (by omega), read2_pad2 t.minute (by omega),
    read2_pad2 t.second (by omega)]
  show (if ':' = ':' ∧ ':' = ':' ∧ t.hour ≤ 23 ∧ t.minute ≤ 59 ∧ t.second ≤ 59
    then _ else none) = _
  rw [if_pos ⟨rfl, rfl, h7, h8, h9⟩]
  by_cases hu : t.usec = 0
  · rw [if_pos hu, hu]
  · rw [if_neg hu]
    simp only [pad6]
    show (if '.' = '.' then _ else none) = _
    rw [if_pos rfl, read6_pad6 _ (by omega)]

theorem fromIso_isoDT (t : DateTime) (h : t.valid) : fromIso (isoDT t) = some t := by
  obtain ⟨h1, h2, h3, h4, h5, h6, h7, h8, h9, h10⟩ := h
  have key := fromIsoTime_iso t.year t.month t.day t h7 h8 h9 h10
  simp only [isoDT, pad4, pad2, List.cons_append, List.nil_append] at *
  rw [fromIso]
  rw [read4_pad4 _ (by omega), read2_pad2 t.month (by omega),
    read2_pad2 t.day (by omega)]
  show (if '-' = '-' ∧ '-' = '-' ∧ 1 ≤ t.year ∧ 1 ≤ t.month ∧ t.month ≤ 12 ∧
    1 ≤ t.day ∧ t.day ≤ 31 then _ else none) = _
  rw [if_pos ⟨rfl, rfl, h1, h3, h4, h5, h6⟩]
  show (if 'T' = 'T' ∨ 'T' = ' ' then _ else none) = _
  rw [if_pos (Or.inl rfl)]
  exact key

theorem pad2_chars (n : Nat) : ∀ c ∈ pad2 n, isDigitChar c = true := by
  intro c hc
  simp only [pad2, List.mem_cons, List.not_mem_nil, or_false] at hc
  rcases hc with rfl | rfl
  · exact digitChar_isDigit _ (by omega)
  · exact digitChar_isDigit _ (by omega)

theorem pad4_chars (n : Nat) : ∀ c ∈ pad4 n, isDigitChar c = true := by
  intro c hc
  simp only [pad4, List.mem_cons, List.not_mem_nil, or_false] at hc
  rcases hc with rfl | rfl | rfl | rfl <;> exact digitChar_isDigit _ (by omega)

theorem pad6_chars (n : Nat) : ∀ c ∈ pad6 n, isDigitChar c = true := by
  intro c hc
  simp only [pad6, List.mem_cons, List.not_mem_nil, or_false] at hc
  rcases hc with rfl | rfl | rfl | rfl | rfl | rfl <;>
    exact digitChar_isDigit _ (by omega)

theorem isoDT_chars (t : DateTime) :
    ∀ c ∈ isoDT t,
      isDigitChar c = true ∨ c = '-' ∨ c = ':' ∨ c = 'T' ∨ c = '.' := by
  intro c hc
  by_cases hu : t.usec = 0 <;>
    [rw [isoDT, if_pos hu] at hc; rw [isoDT, if_neg hu] at hc] <;>
    simp only [List.mem_append, List.mem_cons, List.append_nil,
      List.not_mem_nil, or_false, or_assoc] at hc
  · rcases hc with hc | hc | hc | hc | hc | hc | hc | hc | hc | hc | hc
    · exact Or.inl (pad4_chars _ c hc)
    · exact Or.inr (Or.inl hc)
    · exact Or.inl (pad2_chars _ c hc)
    · exact Or.inr (Or.inl hc)
    · exact Or.inl (pad2_chars _ c hc)
    · exact Or.inr (Or.inr (Or.inr (Or.inl hc)))
    · exact Or.inl (pad2_chars _ c hc)
    · exact Or.inr (Or.inr (Or.inl hc))
    · exact Or.inl (pad2_chars _ c hc)
    · exact Or.inr (Or.inr (Or.inl hc))
    · exact Or.inl (pad2_chars _ c hc)
  · rcases hc with hc | hc | hc | hc | hc | hc | hc | hc | hc | hc | hc | hc | hc
    · exact Or.inl (pad4_chars _ c hc)
    · exact Or.inr (Or.inl hc)
    · exact Or.inl (pad2_chars _ c hc)
    · exact Or.inr (Or.inl hc)
    · exact Or.inl (pad2_chars _ c hc)
    · exact Or.inr (Or.inr (Or.inr (Or.inl hc)))
    · exact Or.inl (pad2_chars _ c hc)
    · exact Or.inr (Or.inr (Or.inl hc))
    · exact Or.inl (pad2_chars _ c hc)
    · exact Or.inr (Or.inr (Or.inl hc))
    · exact Or.inl (pad2_chars _ c hc)
    · exact Or.inr (Or.inr (Or.inr (Or.inr hc)))
    · exact Or.inl (pad6_chars _ c hc)

theorem isoDT_head (t : DateTime) :
    ∃ tl, isoDT t = digitChar (t.year / 1000 % 10) :: tl := by
  rw [isoDT, pad4]
  exact ⟨_, rfl⟩

theorem isoDT_last (t : DateTime) :
    ∃ i k, isoDT t = i ++ [digitChar k] ∧ k < 10 := by
  by_cases hu : t.usec = 0
  · refine ⟨pad4 t.year ++ '-' :: pad2 t.month ++ '-' :: pad2 t.day ++
      'T' :: pad2 t.hour ++ ':' :: pad2 t.minute ++
      [':', digitChar (t.second / 10 % 10)], t.second % 10, ?_, by omega⟩
    rw [isoDT, if_pos hu]
    simp [pad2, List.append_assoc]
  · refine ⟨pad4 t.year ++ '-' :: pad2 t.month ++ '-' :: pad2 t.day ++
      'T' :: pad2 t.hour ++ ':' :: pad2 t.minute ++ ':' :: pad2 t.second ++
      ['.', digitChar (t.usec / 100000 % 10), digitChar (t.usec / 10000 % 10),
       digitChar (t.usec / 1000 % 10), digitChar (t.usec / 100 % 10),
       digitChar (t.usec / 10 % 10)], t.usec % 10, ?_, by omega⟩
    rw [isoDT, if_neg hu]
    simp [pad2, pad6, List.append_assoc]

theorem isoDT_ne_nil (t : DateTime) : isoDT t ≠ [] := by
  obtain ⟨tl, h⟩ := isoDT_head t
  rw [h]
  simp

example : fromIso ("2024-06-16T16:00:00".toList) =
    some ⟨2024, 6, 16, 16, 0, 0, 0⟩ := by decide

example : fromIso ("True".toList) = none := by decide

example : isoDT ⟨2024, 6, 16, 16, 0, 0, 0⟩ = "2024-06-16T16:00:00".toList := by
  decide

example : validateField .email ("a@b.com".toList) = true := by decide

example : validateField .email ("a@.com".toList) = false := by decide

example : validateField .group ("Gym".toList) = false := by decide

example : load_contacts ("Alice,123,a@b.c,Home\nbad line\n".toList) =
    ([⟨"Alice".toList, "123".toList, "a@b.c".toList, "Home".toList⟩], [2]) := by
  decide

theorem contact_line_ne_nil (c : Contact) : contact_line c ≠ [] := by
  cases hn : c.name <;> simp [contact_line, hn]

theorem newline_not_mem_contact_line (c : Contact)
    (h1 : '\n' ∉ c.name) (h2 : '\n' ∉ c.contact) (h3 : '\n' ∉ c.email)
    (h4 : '\n' ∉ c.group) : '\n' ∉ contact_line c := by
  intro hc
  simp only [contact_line, List.cons_append, List.mem_append, List.mem_cons,
    or_assoc] at hc
  rcases hc with hc | hc | hc | hc | hc | hc | hc
  · exact h1 hc
  · exact absurd hc (by decide)
  · exact h2 hc
  · exact absurd hc (by decide)
  · exact h3 hc
  · exact absurd hc (by decide)
  · exact h4 hc

theorem splitChar_contact_line (c : Contact)
    (h1 : ',' ∉ c.name) (h2 : ',' ∉ c.contact) (h3 : ',' ∉ c.email)
    (h4 : ',' ∉ c.group) :
    splitChar ',' (contact_line c) = [c.name, c.contact, c.email, c.group] := by
  unfold contact_line
  simp only [List.append_assoc, List.cons_append]
  rw [splitChar_append _ _ _ h1, splitChar_append _ _ _ h2,
    splitChar_append _ _ _ h3, splitChar_of_not_mem _ _ h4]

theorem load_aux_save_contacts (cs : List Contact) (n : Nat)
    (h : ∀ c ∈ cs, clean_contact c) :
    load_contacts_aux n (splitChar '\n' (save_contacts cs)) = (cs, []) := by
  induction cs generalizing n with
  | nil => rfl
  | cons c cs ih =>
    obtain ⟨hc1, hc2, hc3, hc4, hn1, hn2, hn3, hn4, _, _, _, _, hstrip⟩ :=
      h c (by simp)
    rw [show save_contacts (c :: cs) = contact_line c ++ '\n' :: save_contacts cs
        from rfl,
      splitChar_append _ _ _ (newline_not_mem_contact_line c hn1 hn2 hn3 hn4),
      load_contacts_aux, hstrip,
      if_neg (contact_line_ne_nil c), contact_of_line, hstrip,
      splitChar_contact_line c hc1 hc2 hc3 hc4]
    rw [if_pos (show ([c.name, c.contact, c.email, c.group] : List Str).length = 4
        from rfl)]
    rw [ih (n + 1) fun x hx => h x (by simp [hx])]

/-- Claim C1: serialization is not idempotent for every valid record set —
a validated contact may carry a comma inside its name (only non-emptiness is
checked for names), and the saved line then splits into five fields and is
dropped on reload, so the second save differs from the first. -/
theorem claim_C1_counterexample :
    valid_contact ⟨"Doe, John".toList, "5551234567".toList,
        "a@b.com".toList, "Home".toList⟩ = true ∧
    save_contacts ((load_contacts (save_contacts
        [⟨"Doe, John".toList, "5551234567".toList,
          "a@b.com".toList, "Home".toList⟩])).1) ≠
      save_contacts [⟨"Doe, John".toList, "5551234567".toList,
        "a@b.com".toList, "Home".toList⟩] := by
  exact ⟨by decide, by decide⟩

/-- Claim C1 (amended): for every valid record set whose fields are free of
commas, newlines and carriage returns and whose serialized lines carry no
leading or trailing whitespace, saving, loading the file back and saving
again produces byte-identical file content to the first save. -/
theorem claim_C1 (cs : List Contact)
    (hv : ∀ c ∈ cs, valid_contact c = true)
    (hclean : ∀ c ∈ cs, clean_contact c) :
    save_contacts ((load_contacts (save_contacts cs)).1) = save_contacts cs := by
  unfold load_contacts
  rw [load_aux_save_contacts cs 1 hclean]

/-- Witness for C1 at a concrete record set. -/
theorem claim_C1_witness :
    save_contacts ((load_contacts (save_contacts
        [⟨"Alice".toList, "5551234567".toList,
          "a@b.com".toList, "Home".toList⟩])).1) =
      save_contacts [⟨"Alice".toList, "5551234567".toList,
        "a@b.com".toList, "Home".toList⟩] :=
  claim_C1 _ (by decide) (by decide)

theorem load_aux_all_good (ls : List Str) (n : Nat)
    (h : ∀ l ∈ ls, stripChars l ≠ [] → (splitChar ',' (stripChars l)).length = 4) :
    load_contacts_aux n ls =
      ((ls.filter fun l => !decide (stripChars l = [])).map contact_of_line, []) := by
  induction ls generalizing n with
  | nil => rfl
  | cons l ls ih =>
    by_cases hb : stripChars l = []
    · rw [load_contacts_aux, if_pos hb, ih (n + 1) fun x hx => h x (by simp [hx])]
      simp [List.filter_cons, hb]
    · rw [load_contacts_aux, if_neg hb, if_pos (h l (by simp) hb),
        ih (n + 1) fun x hx => h x (by simp [hx])]
      simp [List.filter_cons, hb]

theorem load_aux_one_bad (pre : List Str) (bad : Str) (post : List Str) (n : Nat)
    (h : ∀ l ∈ pre ++ post,
      stripChars l ≠ [] ∧ (splitChar ',' (stripChars l)).length = 4)
    (hb1 : stripChars bad ≠ [])
    (hb2 : (splitChar ',' (stripChars bad)).length ≠ 4) :
    load_contacts_aux n (pre ++ bad :: post) =
      ((pre ++ post).map contact_of_line, [n + pre.length]) := by
  induction pre generalizing n with
  | nil =>
    rw [List.nil_append, load_contacts_aux, if_neg hb1, if_neg hb2,
      load_aux_all_good post (n + 1) fun l hl _ => (h l (by simp [hl])).2]
    have hfil : (post.filter fun l => !decide (stripChars l = [])) = post :=
      List.filter_eq_self.mpr fun l hl => by
        simp [(h l (by simp [hl])).1]
    rw [hfil]
    simp
  | cons p pre ih =>
    obtain ⟨hp1, hp2⟩ := h p (by simp)
    rw [List.cons_append, load_contacts_aux, if_neg hp1, if_pos hp2,
      ih (n + 1) fun x hx => h x (by simp at hx ⊢; tauto)]
    simp only [List.cons_append, List.map_cons, List.length_cons,
      Prod.mk.injEq, List.cons.injEq, and_true, true_and]
    omega

/-- Claim C2: on a file all of whose non-blank lines split into exactly 4
comma-separated fields, `_load_contacts` yields exactly one record per
non-blank line, in file order, with no warnings; and on a file whose lines
are all non-blank and well-formed except for a single line with the wrong
field count, it yields one record per other line (N-1 records for N lines),
in order, plus exactly one warning naming that line's 1-based number —
loading continues past the bad line. -/
theorem claim_C2 :
    (∀ content : Str,
      (∀ l ∈ splitChar '\n' content, stripChars l ≠ [] →
          (splitChar ',' (stripChars l)).length = 4) →
      load_contacts content =
        (((splitChar '\n' content).filter
            fun l => !decide (stripChars l = [])).map contact_of_line, [])) ∧
    (∀ content : Str, ∀ pre post : List Str, ∀ bad : Str,
      splitChar '\n' content = pre ++ bad :: post →
      (∀ l ∈ pre ++ post,
        stripChars l ≠ [] ∧ (splitChar ',' (stripChars l)).length = 4) →
      stripChars bad ≠ [] →
      (splitChar ',' (stripChars bad)).length ≠ 4 →
      (load_contacts content).1.length = pre.length + post.length ∧
      (load_contacts content).1 = (pre ++ post).map contact_of_line ∧
      (load_contacts content).2 = [pre.length + 1]) := by
  constructor
  · intro content h
    exact load_aux_all_good (splitChar '\n' content) 1 h
  · intro content pre post bad hsplit h hb1 hb2
    unfold load_contacts
    rw [hsplit, load_aux_one_bad pre bad post 1 h hb1 hb2]
    exact ⟨by simp, rfl, by simp [Nat.add_comm]⟩

/-- Witness for C2: a two-record file with a blank line loads to its two
records with no warnings, and a file with one malformed line among three
lines loads to two records and one warning naming line 2. -/
theorem claim_C2_witness :
    (load_contacts ("A,1,a@b.c,Home\n\nB,2,x@y.z,Office\n".toList) =
      (((splitChar '\n' ("A,1,a@b.c,Home\n\nB,2,x@y.z,Office\n".toList)).filter
          fun l => !decide (stripChars l = [])).map contact_of_line, [])) ∧
    ((load_contacts ("A,1,a@b.c,Home\nbad\nB,2,x@y.z,Office".toList)).1.length
        = 2 ∧
      (load_contacts ("A,1,a@b.c,Home\nbad\nB,2,x@y.z,Office".toList)).1 =
        (["A,1,a@b.c,Home".toList, "B,2,x@y.z,Office".toList]).map
          contact_of_line ∧
      (load_contacts ("A,1,a@b.c,Home\nbad\nB,2,x@y.z,Office".toList)).2 =
        [2]) := by
  constructor
  · exact claim_C2.1 _ (by decide)
  · have := claim_C2.2 ("A,1,a@b.c,Home\nbad\nB,2,x@y.z,Office".toList)
      ["A,1,a@b.c,Home".toList] ["B,2,x@y.z,Office".toList] "bad".toList
      (by decide) (by decide) (by decide) (by decide)
    simpa using this

theorem not_dup_iff (cs : List Contact) (name num : Str) :
    is_contact_duplicate cs name num = false ↔
      ∀ c ∈ cs, ¬ (lowerStr c.name = lowerStr name ∧ c.contact = num) := by
  rw [← Bool.not_eq_true]
  simp [is_contact_duplicate, List.any_eq_true, not_or]

/-- Claim C4: for a candidate whose four fields all pass validation,
`add_contact` rejects it as a duplicate exactly when some existing contact
matches its name case-insensitively and its contact number exactly. -/
theorem claim_C4 (cs : List Contact) (name num email grp : Str)
    (h1 : validateField .name name = true)
    (h2 : validateField .contact num = true)
    (h3 : validateField .email email = true)
    (h4 : validateField .group grp = true) :
    (add_contact cs name num email grp).2 = .duplicate ↔
      ∃ c ∈ cs, lowerStr c.name = lowerStr name ∧ c.contact = num := by
  have hdup : is_contact_duplicate cs name num = true ↔
      ∃ c ∈ cs, lowerStr c.name = lowerStr name ∧ c.contact = num := by
    simp [is_contact_duplicate, List.any_eq_true]
  rw [← hdup]
  unfold add_contact
  rw [h1, h2, h3, h4]
  by_cases hd : is_contact_duplicate cs name num = true
  · simp [hd]
  · simp [hd]

/-- Witness for C4: adding ("alice","5551234567",...) after
("Alice","5551234567",...) is rejected as a duplicate; adding
("Alice","5559999999",...) is not. -/
theorem claim_C4_witness :
    (add_contact
        [⟨"Alice".toList, "5551234567".toList, "a@b.com".toList, "Home".toList⟩]
        ("alice".toList) ("5551234567".toList) ("x@y.com".toList)
        ("Office".toList)).2 = .duplicate ∧
    ¬ (add_contact
        [⟨"Alice".toList, "5551234567".toList, "a@b.com".toList, "Home".toList⟩]
        ("Alice".toList) ("5559999999".toList) ("x@y.com".toList)
        ("Office".toList)).2 = .duplicate := by
  constructor
  · exact (claim_C4 _ _ _ _ _ (by decide) (by decide) (by decide)
      (by decide)).mpr
      ⟨⟨"Alice".toList, "5551234567".toList, "a@b.com".toList, "Home".toList⟩,
        by simp, by decide, by decide⟩
  · intro hcon
    obtain ⟨c, hc, hn, hnum⟩ := (claim_C4 _ _ _ _ _ (by decide) (by decide)
      (by decide) (by decide)).mp hcon
    simp only [List.mem_singleton] at hc
    subst hc
    exact absurd hnum (by decide)

/-- Claim C5 counterexample: `update_contact` applies each provided field
independently — with new name "Bob" (valid) and new group "Gym" (fails
validation), the name change is applied and persisted even though a field
failed a business rule, so the record set and the file do change. -/
theorem claim_C5_counterexample :
    validateField .group ("Gym".toList) = false ∧
    (update_contact
        [⟨"Alice".toList, "1234567".toList, "a@b.c".toList, "Home".toList⟩]
        ("Alice".toList) ("1234567".toList)
        ("Bob".toList) [] [] ("Gym".toList)).1 ≠
      [⟨"Alice".toList, "1234567".toList, "a@b.c".toList, "Home".toList⟩] ∧
    (update_contact
        [⟨"Alice".toList, "1234567".toList, "a@b.c".toList, "Home".toList⟩]
        ("Alice".toList) ("1234567".toList)
        ("Bob".toList) [] [] ("Gym".toList)).2 = true := by
  exact ⟨by decide, by decide, by decide⟩

/-- Claim C5 (amended): for `add_contact`, if any field fails validation the
mutation is aborted and nothing is persisted — the record set is returned
unchanged with no save.  For `update_contact`, an invalid provided field is
skipped individually; the mutation is aborted with nothing persisted exactly
when every provided field is blank or fails validation (otherwise the valid
fields are applied and the set is persisted, see the counterexample). -/
theorem claim_C5 :
    (∀ (cs : List Contact) (name num email grp : Str),
      ¬ (validateField .name name = true ∧ validateField .contact num = true ∧
          validateField .email email = true ∧
          validateField .group grp = true) →
      add_contact cs name num email grp = (cs, .invalid)) ∧
    (∀ (cs : List Contact) (fname fnum nn nc ne ng : Str),
      (nn = [] ∨ validateField .name nn = false) →
      (nc = [] ∨ validateField .contact nc = false) →
      (ne = [] ∨ validateField .email ne = false) →
      (ng = [] ∨ validateField .group ng = false) →
      update_contact cs fname fnum nn nc ne ng = (cs, false)) := by
  constructor
  · intro cs name num email grp h
    unfold add_contact
    by_cases v1 : validateField .name name = true
    · by_cases v2 : validateField .contact num = true
      · by_cases v3 : validateField .email email = true
        · by_cases v4 : validateField .group grp = true
          · exact absurd ⟨v1, v2, v3, v4⟩ h
          · simp only [Bool.not_eq_true] at v4
            rw [v1, v2, v3, v4]
            simp
        · simp only [Bool.not_eq_true] at v3
          rw [v1, v2, v3]
          simp
      · simp only [Bool.not_eq_true] at v2
        rw [v1, v2]
        simp
    · simp only [Bool.not_eq_true] at v1
      rw [v1]
      simp
  · intro cs fname fnum nn nc ne ng h1 h2 h3 h4
    have hu1 : (decide (nn ≠ []) && validateField .name nn) = false := by
      rcases h1 with h | h <;> simp [h]
    have hu2 : (decide (nc ≠ []) && validateField .contact nc) = false := by
      rcases h2 with h | h <;> simp [h]
    have hu3 : (decide (ne ≠ []) && validateField .email ne) = false := by
      rcases h3 with h | h <;> simp [h]
    have hu4 : (decide (ng ≠ []) && validateField .group ng) = false := by
      rcases h4 with h | h <;> simp [h]
    unfold update_contact
    cases hfi : cs.findIdx? (fun c =>
        decide (lowerStr c.name = lowerStr fname) &&
        decide (c.contact = fnum)) with
    | none => rfl
    | some i =>
      cases hg : cs[i]? with
      | none => simp [hg]
      | some c0 =>
        simp [hg, hu1, hu2, hu3, hu4]
        exact ⟨⟨⟨fun h => h1.resolve_left h, fun h => h2.resolve_left h⟩,
          fun h => h3.resolve_left h⟩, fun h => h4.resolve_left h⟩

/-- Witness for C5: adding with an invalid e-mail leaves the set unchanged,
and an update whose only provided field fails validation changes nothing. -/
theorem claim_C5_witness :
    add_contact
        [⟨"Alice".toList, "1234567".toList, "a@b.c".toList, "Home".toList⟩]
        ("Bob".toList) ("7654321".toList) ("nomail".toList) ("Home".toList) =
      ([⟨"Alice".toList, "1234567".toList, "a@b.c".toList, "Home".toList⟩],
        .invalid) ∧
    update_contact
        [⟨"Alice".toList, "1234567".toList, "a@b.c".toList, "Home".toList⟩]
        ("Alice".toList) ("1234567".toList) [] [] [] ("Gym".toList) =
      ([⟨"Alice".toList, "1234567".toList, "a@b.c".toList, "Home".toList⟩],
        false) := by
  constructor
  · exact claim_C5.1 _ _ _ _ _ (by decide)
  · exact claim_C5.2 _ _ _ _ _ _ _ (Or.inl rfl) (Or.inl rfl) (Or.inl rfl)
      (Or.inr (by decide))

/-- Claim C8 counterexample: `_load_contacts` performs no duplicate
filtering — a file containing the same well-formed line twice loads to two
live contacts that share the identity key (case-insensitive name and exact
number), so the live record set is not duplicate-free. -/
theorem claim_C8_counterexample :
    (load_contacts
        ("Alice,1234567,a@b.c,Home\nAlice,1234567,a@b.c,Home\n".toList)).1 =
      [⟨"Alice".toList, "1234567".toList, "a@b.c".toList, "Home".toList⟩,
       ⟨"Alice".toList, "1234567".toList, "a@b.c".toList, "Home".toList⟩] ∧
    ¬ dup_free (load_contacts
        ("Alice,1234567,a@b.c,Home\nAlice,1234567,a@b.c,Home\n".toList)).1 := by
  exact ⟨by decide, by decide⟩

/-- Claim C8 (amended): `add_contact` and `delete_contact` preserve
duplicate-freeness of the live record set; `_load_contacts`, however, does
not establish the invariant — a file with duplicate lines yields duplicate
live records (counterexample above) — and `update_contact` does not re-check
duplicates. -/
theorem claim_C8 (cs : List Contact) (name num email grp dn dnum : Str)
    (hdf : dup_free cs) :
    dup_free (add_contact cs name num email grp).1 ∧
    dup_free (delete_contact cs dn dnum).1 := by
  constructor
  · unfold add_contact
    split_ifs with v1 v2 v3 v4 hd
    · exact hdf
    · exact hdf
    · exact hdf
    · exact hdf
    · exact hdf
    · have hnd : is_contact_duplicate cs name num = false := by
        revert hd
        cases is_contact_duplicate cs name num <;> simp
      have hall := (not_dup_iff cs name num).mp hnd
      unfold dup_free
      rw [List.pairwise_append]
      refine ⟨hdf, by simp, ?_⟩
      intro a ha b hb
      simp only [List.mem_singleton] at hb
      subst hb
      exact hall a ha
  · unfold delete_contact
    split_ifs with hlen
    · exact hdf
    · exact hdf.sublist (List.filter_sublist cs)

/-- Witness for C8 at a concrete duplicate-free set. -/
theorem claim_C8_witness :
    dup_free (add_contact
      [⟨"Alice".toList, "1234567".toList, "a@b.c".toList, "Home".toList⟩]
      ("Bob".toList) ("7654321".toList) ("b@c.d".toList) ("Office".toList)).1 ∧
    dup_free (delete_contact
      [⟨"Alice".toList, "1234567".toList, "a@b.c".toList, "Home".toList⟩]
      ("Alice".toList) ("1234567".toList)).1 :=
  claim_C8 _ _ _ _ _ _ _ (by decide)

/-- Claim C9 counterexample: the contact loader does no field-level
validation at all — a 4-field line whose group "Gym" lies outside the closed
enum set (and would fail `_validate_input`) is admitted as a record with no
warning rather than failed and skipped. -/
theorem claim_C9_counterexample :
    (load_contacts ("A,1,b@c.d,Gym\n".toList)).1 =
      [⟨"A".toList, "1".toList, "b@c.d".toList, "Gym".toList⟩] ∧
    (load_contacts ("A,1,b@c.d,Gym\n".toList)).2 = [] ∧
    validateField .group ("Gym".toList) = false := by
  exact ⟨by decide, by decide, by decide⟩

namespace Todo

example : load_tasks ("1,buy milk,False,2024-06-16T16:00:00,None\n".toList) =
    (⟨[⟨1, "buy milk".toList, false, ⟨2024, 6, 16, 16, 0, 0, 0⟩, none⟩], 2⟩,
      []) := by decide

theorem mem_le_max_task_id (ts : List Task) : ∀ t ∈ ts, t.id ≤ max_task_id ts := by
  induction ts with
  | nil => simp
  | cons t ts ih =>
    intro x hx
    rcases List.mem_cons.mp hx with rfl | hx
    · exact le_max_left _ _
    · exact le_trans (ih x hx) (le_max_right _ _)

theorem apply_op_next_ge (st : TodoState) (op : TodoOp) :
    st.next_id ≤ (apply_op st op).1.next_id := by
  cases op with
  | add d now dl =>
    simp only [apply_op]
    by_cases h1 : stripChars d = []
    · rw [if_pos h1]
    · rw [if_neg h1]
      by_cases h2 : st.next_id ≤ 0
      · rw [if_pos h2]
      · rw [if_neg h2]
        show st.next_id ≤ st.next_id + 1
        omega
  | remove i => exact le_refl _

theorem run_ops_issued_ge (ops : List TodoOp) (st : TodoState) :
    ∀ i ∈ (run_ops st ops).2, st.next_id ≤ i := by
  induction ops generalizing st with
  | nil => simp [run_ops]
  | cons op ops ih =>
    intro i hi
    simp only [run_ops] at hi
    rcases List.mem_append.mp hi with hi | hi
    · cases op with
      | add d now dl =>
        simp only [apply_op] at hi
        by_cases h1 : stripChars d = []
        · rw [if_pos h1] at hi
          simp at hi
        · rw [if_neg h1] at hi
          by_cases h2 : st.next_id ≤ 0
          · rw [if_pos h2] at hi
            simp at hi
          · rw [if_neg h2] at hi
            simp at hi
            omega
      | remove j =>
        simp [apply_op] at hi
    · exact le_trans (apply_op_next_ge st op) (ih (apply_op st op).1 i hi)

theorem run_ops_pairwise (ops : List TodoOp) (st : TodoState) :
    (run_ops st ops).2.Pairwise (· < ·) := by
  induction ops generalizing st with
  | nil => simp [run_ops]
  | cons op ops ih =>
    simp only [run_ops]
    cases op with
    | add d now dl =>
      simp only [apply_op]
      by_cases h1 : stripChars d = []
      · rw [if_pos h1, List.nil_append]
        exact ih _
      · rw [if_neg h1]
        by_cases h2 : st.next_id ≤ 0
        · rw [if_pos h2, List.nil_append]
          exact ih _
        · rw [if_neg h2, List.singleton_append, List.pairwise_cons]
          refine ⟨?_, ih _⟩
          intro j hj
          have hge : st.next_id + 1 ≤ j := run_ops_issued_ge ops _ j hj
          omega
    | remove j =>
      simp only [apply_op]
      rw [List.nil_append]
      exact ih _

/-- Claim C3: after a load, `_next_id` equals one more than the maximum id of
the loaded tasks, and 1 when nothing loaded; and from any loaded state, the
ids issued by any sequence of add/remove operations are strictly increasing
and strictly above every loaded id — so an id once issued (or loaded) is
never issued again within the session, deletion notwithstanding. -/
theorem claim_C3 :
    (∀ content : Str,
      (load_tasks content).1.next_id =
        max_task_id (load_tasks content).1.tasks + 1 ∧
      ((load_tasks content).1.tasks = [] → (load_tasks content).1.next_id = 1)) ∧
    (∀ content : Str, ∀ ops : List TodoOp,
      (run_ops (load_tasks content).1 ops).2.Pairwise (· < ·) ∧
      (∀ i ∈ (run_ops (load_tasks content).1 ops).2,
        ∀ t ∈ (load_tasks content).1.tasks, t.id < i)) := by
  constructor
  · intro content
    refine ⟨rfl, ?_⟩
    intro h
    show max_task_id (load_tasks content).1.tasks + 1 = 1
    rw [h]
    simp [max_task_id]
  · intro content ops
    refine ⟨run_ops_pairwise ops _, ?_⟩
    intro i hi t ht
    have hgi : (load_tasks content).1.next_id ≤ i := run_ops_issued_ge ops _ i hi
    have hmax : t.id ≤ max_task_id (load_tasks content).1.tasks :=
      mem_le_max_task_id _ t ht
    have hnext : (load_tasks content).1.next_id =
        max_task_id (load_tasks content).1.tasks + 1 := rfl
    omega

/-- Witness for C3: loading ids 1, 3, 7 gives next id 8; an empty file gives
next id 1; issued ids of a concrete run are strictly increasing. -/
theorem claim_C3_witness :
    (load_tasks ("1,a,False,2024-01-01T00:00:00,None
3,b,False,2024-01-01T00:00:00,None
7,c,True,2024-01-01T00:00:00,None
".toList)).1.next_id = 8 ∧
    (load_tasks ("".toList)).1.next_id = 1 ∧
    (run_ops
      (load_tasks ("1,a,False,2024-01-01T00:00:00,None
3,b,False,2024-01-01T00:00:00,None
7,c,True,2024-01-01T00:00:00,None
".toList)).1
      [TodoOp.add ("x".toList) ⟨2024, 1, 1, 0, 0, 0, 0⟩ none,
       TodoOp.remove 8,
       TodoOp.add ("y".toList) ⟨2024, 1, 1, 0, 0, 0, 0⟩ none]).2.Pairwise
      (· < ·) := by
  refine ⟨by decide, (claim_C3.1 ("".toList)).2 (by decide), (claim_C3.2 _ _).1⟩

theorem intToChars_pos (i : Int) (h : 0 < i) : intToChars i = natToChars i.toNat := by
  unfold intToChars
  rw [if_neg (by omega)]

theorem exists_cons_append (a R : Str) (hne : a ≠ []) :
    ∃ c tl, a ++ R = c :: tl ∧ c ∈ a := by
  cases a with
  | nil => exact absurd rfl hne
  | cons c cs => exact ⟨c, cs ++ R, rfl, by simp⟩

theorem exists_append_last (L b : Str) (hne : b ≠ []) :
    ∃ i c, L ++ b = i ++ [c] ∧ c ∈ b := by
  obtain ⟨c, cs, hc⟩ :=
    List.exists_cons_of_ne_nil (show b.reverse ≠ [] by simpa using hne)
  have hb : b = cs.reverse ++ [c] := by
    rw [← List.reverse_reverse b, hc]
    simp
  refine ⟨L ++ cs.reverse, c, by rw [hb, List.append_assoc], ?_⟩
  rw [hb]
  simp

theorem natToChars_not_mem (n : Nat) (c : Char) (h : isDigitChar c = false) :
    c ∉ natToChars n := fun hc =>
  absurd (natToChars_all_digits n c hc) (by simp [h])

theorem not_mem_isoDT (t : DateTime) (c : Char) (h1 : isDigitChar c = false)
    (h2 : c ≠ '-') (h3 : c ≠ ':') (h4 : c ≠ 'T') (h5 : c ≠ '.') :
    c ∉ isoDT t := by
  intro hc
  rcases isoDT_chars t c hc with h | h | h | h | h
  · rw [h1] at h
    exact absurd h (by simp)
  · exact h2 h
  · exact h3 h
  · exact h4 h
  · exact h5 h

theorem isoDT_ne_noneStr (d : DateTime) : isoDT d ≠ noneStr := by
  obtain ⟨tl, h⟩ := isoDT_head d
  intro he
  rw [h, show noneStr = 'N' :: "one".toList from rfl] at he
  have h1 : digitChar (d.year / 1000 % 10) = 'N' := (List.cons.inj he).1
  have h2 := digitChar_toNat (d.year / 1000 % 10) (by omega)
  rw [h1, show ('N').toNat = 78 from rfl] at h2
  omega

theorem dl_chars_not_space (o : Option DateTime) (c : Char)
    (hm : c ∈ (match o with | none => noneStr | some d => isoDT d)) :
    isPySpace c = false := by
  cases o with
  | none =>
    rw [show noneStr = ['N', 'o', 'n', 'e'] from rfl] at hm
    simp only [List.mem_cons, List.not_mem_nil, or_false] at hm
    rcases hm with rfl | rfl | rfl | rfl <;> decide
  | some d =>
    rcases isoDT_chars d c hm with h | rfl | rfl | rfl | rfl
    · exact digit_not_space c h
    all_goals decide

theorem boolStr_roundtrip (b : Bool) :
    decide (lowerStr (boolStr b) = "true".toList) = b := by
  cases b <;> decide

theorem task_line_ne_nil (t : Task) (hid : 0 < t.id) : task_line t ≠ [] := by
  unfold task_line
  rw [intToChars_pos t.id hid]
  obtain ⟨c, cs, hc⟩ := List.exists_cons_of_ne_nil (natToChars_ne_nil t.id.toNat)
  rw [hc]
  simp

theorem newline_not_mem_task_line (t : Task) (hid : 0 < t.id)
    (hd : '\n' ∉ t.description) : '\n' ∉ task_line t := by
  intro hc
  unfold task_line at hc
  rw [intToChars_pos t.id hid] at hc
  simp only [List.append_assoc, List.cons_append, List.mem_append,
    List.mem_cons, or_assoc] at hc
  rcases hc with hc | hc | hc | hc | hc | hc | hc | hc | hc
  · exact natToChars_not_mem _ _ (by decide) hc
  · exact absurd hc (by decide)
  · exact hd hc
  · exact absurd hc (by decide)
  · revert hc
    cases t.is_completed <;> decide
  · exact absurd hc (by decide)
  · exact not_mem_isoDT _ _ (by decide) (by decide) (by decide) (by decide)
      (by decide) hc
  · exact absurd hc (by decide)
  · revert hc
    cases t.deadline with
    | none => decide
    | some d =>
      intro hc
      exact not_mem_isoDT _ _ (by decide) (by decide) (by decide) (by decide)
        (by decide) hc

theorem task_line_split (t : Task) (hid : 0 < t.id) (hd : ',' ∉ t.description) :
    splitCharMax ',' 4 (task_line t) =
      [intToChars t.id, t.description, boolStr t.is_completed,
       isoDT t.creation,
       match t.deadline with | none => noneStr | some d => isoDT d] := by
  have h0 : ',' ∉ intToChars t.id := by
    rw [intToChars_pos t.id hid]
    exact natToChars_not_mem _ _ (by decide)
  have h2 : ',' ∉ boolStr t.is_completed := by
    cases t.is_completed <;> decide
  have h3 : ',' ∉ isoDT t.creation :=
    not_mem_isoDT _ _ (by decide) (by decide) (by decide) (by decide) (by decide)
  unfold task_line
  simp only [List.append_assoc, List.cons_append]
  rw [show (4 : Nat) = 3 + 1 from rfl, splitCharMax_append _ 3 _ _ h0,
    show (3 : Nat) = 2 + 1 from rfl, splitCharMax_append _ 2 _ _ hd,
    show (2 : Nat) = 1 + 1 from rfl, splitCharMax_append _ 1 _ _ h2,
    show (1 : Nat) = 0 + 1 from rfl, splitCharMax_append _ 0 _ _ h3,
    splitCharMax_zero]

theorem task_line_strip (t : Task) (hid : 0 < t.id) :
    stripChars (task_line t) = task_line t := by
  apply stripChars_eq_self
  · have hsh : task_line t = natToChars t.id.toNat ++
        (',' :: t.description ++ ',' :: boolStr t.is_completed ++
          ',' :: isoDT t.creation ++
          ',' :: (match t.deadline with | none => noneStr | some d => isoDT d)) := by
      unfold task_line
      rw [intToChars_pos t.id hid]
      simp [List.append_assoc]
    obtain ⟨c, tl, he, hm⟩ :=
      exists_cons_append (natToChars t.id.toNat) _ (natToChars_ne_nil t.id.toNat)
    exact ⟨c, tl, by rw [hsh, he],
      digit_not_space c (natToChars_all_digits _ c hm)⟩
  · have hdlne : (match t.deadline with | none => noneStr | some d => isoDT d) ≠
        ([] : Str) := by
      cases t.deadline with
      | none => decide
      | some d => exact isoDT_ne_nil d
    have hsh : task_line t = (intToChars t.id ++ ',' :: t.description ++
        ',' :: boolStr t.is_completed ++ ',' :: isoDT t.creation ++ [',']) ++
        (match t.deadline with | none => noneStr | some d => isoDT d) := by
      unfold task_line
      simp [List.append_assoc]
    obtain ⟨i, c, he, hm⟩ := exists_append_last _ _ hdlne
    exact ⟨i, c, by rw [hsh, he], dl_chars_not_space t.deadline c hm⟩

theorem task_of_parts_line (t : Task) (hwf : Task.wf t) :
    task_of_parts (intToChars t.id) t.description (boolStr t.is_completed)
      (isoDT t.creation)
      (match t.deadline with | none => noneStr | some d => isoDT d) = some t := by
  obtain ⟨hid, hdne, hdstrip, hcval, hdlval⟩ := hwf
  have hcond : 0 < t.id ∧ stripChars t.description ≠ [] :=
    ⟨hid, by rw [hdstrip]; exact hdne⟩
  unfold task_of_parts
  rw [parseInt_intToChars t.id hid, fromIso_isoDT t.creation hcval]
  cases hdl : t.deadline with
  | none =>
    rw [if_pos rfl]
    show (if 0 < t.id ∧ stripChars t.description ≠ [] then _ else none) = _
    rw [if_pos hcond, hdstrip, boolStr_roundtrip, ← hdl]
  | some d =>
    rw [if_neg (isoDT_ne_noneStr d)]
    have hdv : d.valid := by
      rw [hdl] at hdlval
      exact hdlval
    rw [fromIso_isoDT d hdv]
    show (if 0 < t.id ∧ stripChars t.description ≠ [] then _ else none) = _
    rw [if_pos hcond, hdstrip, boolStr_roundtrip, ← hdl]

theorem load_aux_save_tasks (ts : List Task) (n : Nat)
    (h : ∀ t ∈ ts, clean_task t) :
    load_tasks_aux n (splitChar '\n' (save_tasks ts)) = (ts, []) := by
  induction ts generalizing n with
  | nil => rfl
  | cons t ts ih =>
    obtain ⟨hwf, hcm, hnl, hcr⟩ := h t (by simp)
    rw [show save_tasks (t :: ts) = task_line t ++ '\n' :: save_tasks ts from rfl,
      splitChar_append _ _ _ (newline_not_mem_task_line t hwf.1 hnl),
      load_tasks_aux, task_line_strip t hwf.1,
      if_neg (task_line_ne_nil t hwf.1), task_line_split t hwf.1 hcm]
    simp only [task_of_parts_line t hwf]
    rw [ih (n + 1) fun x hx => h x (by simp [hx])]

/-- Claim C7 counterexample: the task (id 1, description "a,b") is
constructor-valid, but saving and reloading loses it entirely — the max-split
consumes the description's comma from the left, the shifted field "False"
fails the datetime parse, and the line is skipped with a warning. -/
theorem claim_C7_counterexample :
    Task.wf ⟨1, "a,b".toList, false, ⟨2024, 6, 16, 16, 0, 0, 0⟩, none⟩ ∧
    (load_tasks (save_tasks
      [⟨1, "a,b".toList, false, ⟨2024, 6, 16, 16, 0, 0, 0⟩, none⟩])).1.tasks =
      [] ∧
    (load_tasks (save_tasks
      [⟨1, "a,b".toList, false, ⟨2024, 6, 16, 16, 0, 0, 0⟩, none⟩])).2 = [1] := by
  exact ⟨by decide, by decide, by decide⟩

/-- Claim C7 (amended): the comma-delimited task line parsed with a maximum
split count of 5 recovers a saved task intact — id, full description,
completed flag, creation timestamp and deadline, with no warnings — provided
the description itself contains no commas (the max split protects embedded
commas only in the final, deadline field; a comma inside the description
shifts the later fixed fields and the task is lost, see the
counterexample). -/
theorem claim_C7 (ts : List Task) (h : ∀ t ∈ ts, clean_task t) :
    (load_tasks (save_tasks ts)).1.tasks = ts ∧
    (load_tasks (save_tasks ts)).2 = [] := by
  have key := load_aux_save_tasks ts 1 h
  constructor
  · show (load_tasks_aux 1 (splitChar '\n' (save_tasks ts))).1 = ts
    rw [key]
  · show (load_tasks_aux 1 (splitChar '\n' (save_tasks ts))).2 = []
    rw [key]

/-- Witness for C7 at a concrete two-task list (with and without
deadline, microseconds in one timestamp). -/
theorem claim_C7_witness :
    (load_tasks (save_tasks
      [⟨1, "buy milk".toList, false, ⟨2024, 6, 16, 16, 0, 0, 0⟩,
        some ⟨2024, 6, 17, 23, 59, 0, 0⟩⟩,
       ⟨2, "walk dog".toList, true, ⟨2024, 6, 16, 16, 0, 5, 123456⟩,
        none⟩])).1.tasks =
      [⟨1, "buy milk".toList, false, ⟨2024, 6, 16, 16, 0, 0, 0⟩,
        some ⟨2024, 6, 17, 23, 59, 0, 0⟩⟩,
       ⟨2, "walk dog".toList, true, ⟨2024, 6, 16, 16, 0, 5, 123456⟩, none⟩] ∧
    (load_tasks (save_tasks
      [⟨1, "buy milk".toList, false, ⟨2024, 6, 16, 16, 0, 0, 0⟩,
        some ⟨2024, 6, 17, 23, 59, 0, 0⟩⟩,
       ⟨2, "walk dog".toList, true, ⟨2024, 6, 16, 16, 0, 5, 123456⟩,
        none⟩])).2 = [] :=
  claim_C7 _ (by decide)

end Todo

theorem upsertAssoc_forall {α : Type} (P : α → Prop) (k : Str) (v : α)
    (l : List (Str × α)) (hl : ∀ kv ∈ l, P kv.2) (hv : P v) :
    ∀ kv ∈ upsertAssoc k v l, P kv.2 := by
  induction l with
  | nil =>
    intro kv hkv
    simp only [upsertAssoc, List.mem_singleton] at hkv
    rw [hkv]
    exact hv
  | cons p rest ih =>
    obtain ⟨k2, v2⟩ := p
    intro kv hkv
    rw [upsertAssoc] at hkv
    by_cases hk : k2 = k
    · rw [if_pos hk] at hkv
      rcases List.mem_cons.mp hkv with rfl | hkv
      · exact hv
      · exact hl kv (by simp [hkv])
    · rw [if_neg hk] at hkv
      rcases List.mem_cons.mp hkv with rfl | hkv
      · exact hl (k2, v2) (by simp)
      · exact ih (fun x hx => hl x (by simp [hx])) kv hkv

namespace Finance

theorem parse_user_line_cat (l : Str) (u : User)
    (h : parse_user_line l = some u) : u.category ∈ VALID_CATEGORIES := by
  unfold parse_user_line at h
  split at h
  · split at h
    · injection h with h2
      rw [← h2]
      next _ hcat => exact hcat
    · exact absurd h (by simp)
  · exact absurd h (by simp)

theorem load_users_aux_cat (ls : List Str) (n : Nat) (acc : List (Str × User))
    (hacc : ∀ kv ∈ acc, kv.2.category ∈ VALID_CATEGORIES) :
    ∀ kv ∈ (load_users_aux n acc ls).1, kv.2.category ∈ VALID_CATEGORIES := by
  induction ls generalizing n acc with
  | nil => exact hacc
  | cons l ls ih =>
    intro kv hkv
    rw [load_users_aux] at hkv
    by_cases hb : stripChars l = []
    · rw [if_pos hb] at hkv
      exact ih (n + 1) acc hacc kv hkv
    · rw [if_neg hb] at hkv
      cases hp : parse_user_line l with
      | some u =>
        simp only [hp] at hkv
        exact ih (n + 1) _
          (upsertAssoc_forall (fun x : User => x.category ∈ VALID_CATEGORIES)
            u.account_no u acc hacc (parse_user_line_cat l u hp)) kv hkv
      | none =>
        simp only [hp] at hkv
        exact ih (n + 1) acc hacc kv hkv

theorem parse_transaction_amount (l : Str) (t : Transaction)
    (h : parse_transaction_line l = some t) : 0 ≤ t.amount := by
  unfold parse_transaction_line at h
  split at h
  · split at h
    · split at h
      · injection h with h2
        rw [← h2]
        next hcond => exact not_lt.mp hcond.2
      · exact absurd h (by simp)
    · exact absurd h (by simp)
  · exact absurd h (by simp)

theorem load_transactions_aux_amount (ls : List Str) (n : Nat) :
    ∀ t ∈ (load_transactions_aux n ls).1, 0 ≤ t.amount := by
  induction ls generalizing n with
  | nil => simp [load_transactions_aux]
  | cons l ls ih =>
    intro t ht
    rw [load_transactions_aux] at ht
    by_cases hb : stripChars l = []
    · rw [if_pos hb] at ht
      exact ih (n + 1) t ht
    · rw [if_neg hb] at ht
      cases hp : parse_transaction_line l with
      | some u =>
        simp only [hp] at ht
        rcases List.mem_cons.mp ht with rfl | ht
        · exact parse_transaction_amount l t hp
        · exact ih (n + 1) t ht
      | none =>
        simp only [hp] at ht
        exact ih (n + 1) t ht

end Finance

example : Finance.load_users ("99:h:Bob:freelancer\n".toList) =
    ([("99".toList,
        ⟨"99".toList, "h".toList, "Bob".toList, "freelancer".toList⟩)], []) := by
  decide

example : Finance.load_transactions
    ("1,2024-01-01T00:00:00,Income,2.50,a,b\n".toList) =
    ([⟨"1".toList, ⟨2024, 1, 1, 0, 0, 0, 0⟩, "Income".toList, mkRat 5 2,
       "a,b".toList⟩], []) := by decide

/-- Claim C6 counterexample: a transaction line with amount 0 already in the
file is not dropped during load — the load filter only drops strictly
negative amounts (`amount < 0`), so the zero-amount line is admitted as a
record with no warning, although the same amount is rejected at entry. -/
theorem claim_C6_counterexample :
    Finance.load_transactions
        ("1,2024-01-01T00:00:00,Income,0,lunch\n".toList) =
      ([⟨"1".toList, ⟨2024, 1, 1, 0, 0, 0, 0⟩, "Income".toList, mkRat 0 1,
        "lunch".toList⟩], []) ∧
    Finance.entry_amount_ok (mkRat 0 1) = false := by
  exact ⟨by decide, by decide⟩

/-- Claim C6 (amended): an amount of -5 or 0 submitted through
`add_transaction` is rejected before anything is persisted (the entry gate
accepts exactly the positive amounts); a stored line with a negative amount
such as -5 is dropped during load with a warning, and every transaction the
loader admits has non-negative amount — but a zero-amount line is admitted,
not dropped (see the counterexample). -/
theorem claim_C6 :
    (∀ q : ℚ, Finance.entry_amount_ok q = true ↔ 0 < q) ∧
    (∀ content : Str, ∀ t ∈ (Finance.load_transactions content).1,
      0 ≤ t.amount) ∧
    (Finance.load_transactions
      ("1,2024-01-01T00:00:00,Income,-5,lunch\n".toList) = ([], [1])) := by
  refine ⟨?_, ?_, by decide⟩
  · intro q
    simp [Finance.entry_amount_ok, not_le]
  · intro content t ht
    exact Finance.load_transactions_aux_amount _ 1 t ht

/-- Witness for C6: a positive amount passes the entry gate, and the
transaction loaded from a concrete well-formed line has a non-negative
amount. -/
theorem claim_C6_witness :
    Finance.entry_amount_ok (mkRat 5 1) = true ∧
    (0 : ℚ) ≤ (⟨"1".toList, ⟨2024, 1, 1, 0, 0, 0, 0⟩, "Income".toList,
      mkRat 3 1, "x".toList⟩ : Finance.Transaction).amount :=
  ⟨(claim_C6.1 (mkRat 5 1)).mpr (by norm_num),
   claim_C6.2.1 ("1,2024-01-01T00:00:00,Income,3,x\n".toList) _ (by decide)⟩

/-- Claim C9 (amended): field-level validation during load is done by the
finance tracker — its user loader checks category membership in the closed
set and fails violating lines with a warning, so every stored user's
category lies in the allowed set — but not by the contact loader, which
admits any 4-field line unvalidated: a line whose group lies outside the
closed enum set is admitted with no warning (see the counterexample). -/
theorem claim_C9 :
    (∀ content : Str, ∀ kv ∈ (Finance.load_users content).1,
      kv.2.category ∈ Finance.VALID_CATEGORIES) ∧
    (Finance.load_users ("99:h:Bob:student\n".toList) = ([], [1])) ∧
    (load_contacts ("A,1,b@c.d,Gym\n".toList)).1 =
      [⟨"A".toList, "1".toList, "b@c.d".toList, "Gym".toList⟩] ∧
    (load_contacts ("A,1,b@c.d,Gym\n".toList)).2 = [] := by
  refine ⟨?_, by decide, by decide, by decide⟩
  intro content kv hkv
  exact Finance.load_users_aux_cat _ 1 [] (by simp) kv hkv

/-- Witness for C9: the user loaded from a concrete well-formed line has its
category in the closed set. -/
theorem claim_C9_witness :
    (("7".toList,
        (⟨"7".toList, "h".toList, "Ann".toList, "freelancer".toList⟩ :
          Finance.User)) : Str × Finance.User).2.category ∈
      Finance.VALID_CATEGORIES :=
  claim_C9.1 ("7:h:Ann:freelancer\n".toList) _ (by decide)

/-- Claim C10: at social-media signup a (stripped, non-blank) candidate
username is rejected as taken exactly when it is byte-for-byte equal to an
existing dict key — the comparison is case-sensitive, unlike contact-name
matching — so signing up "Alice" and then "alice" both succeed. -/
theorem claim_C10 :
    (∀ (hash : Str → Str) (users : List (Str × Social.User)) (u p : Str),
      stripChars u = u → u ≠ [] → stripChars p ≠ [] →
      ((Social.signup hash users u p).2 = .taken ↔
        u ∈ users.map Prod.fst)) ∧
    ((Social.signup id [] ("Alice".toList) ("pw".toList)).2 = .ok ∧
      (Social.signup id (Social.signup id [] ("Alice".toList) ("pw".toList)).1
        ("alice".toList) ("pw".toList)).2 = .ok) := by
  constructor
  · intro hash users u p hsu hne hp
    unfold Social.signup
    rw [hsu, if_neg (by simp [hne, hp])]
    by_cases hm : u ∈ users.map Prod.fst
    · rw [if_pos hm]
      simp [hm]
    · rw [if_neg hm]
      by_cases hh : stripChars (hash p) = []
      · rw [if_pos hh]
        simp [hm]
      · rw [if_neg hh]
        simp [hm]
  · exact ⟨by decide, by decide⟩

/-- Witness for C10: with "Alice" registered, the candidate "Bob" is not
rejected as taken, and the candidate "Alice" is. -/
theorem claim_C10_witness :
    ((Social.signup id [("Alice".toList, ⟨"Alice".toList, "h".toList⟩)]
        ("Bob".toList) ("pw".toList)).2 = .taken ↔
      "Bob".toList ∈
        ([("Alice".toList,
          (⟨"Alice".toList, "h".toList⟩ : Social.User))]).map Prod.fst) ∧
    ((Social.signup id [("Alice".toList, ⟨"Alice".toList, "h".toList⟩)]
        ("Alice".toList) ("pw".toList)).2 = .taken ↔
      "Alice".toList ∈
        ([("Alice".toList,
          (⟨"Alice".toList, "h".toList⟩ : Social.User))]).map Prod.fst) :=
  ⟨claim_C10.1 id _ _ _ (by decide) (by decide) (by decide),
   claim_C10.1 id _ _ _ (by decide) (by decide) (by decide)⟩
